import Mathlib

set_option autoImplicit false

/-!
Shallow embedding of the stable-branch synchronizer (src/main.py) and proofs
about it.  The script clones each repository of a build report, checks whether
a fixed stable branch exists, and either merges the target commit into it or
creates the branch at that commit; failures of individual git operations are
collected in a process-wide map and rendered as a table at the end.

Modelling choices, all taken from the source:
  * a spawned git process is abstracted as a `ProcResult` (captured stdout,
    captured stderr, exit code) supplied by a `GitEnv`; the Python code reads
    these through `Popen.communicate()`, which returns `None` for a stream
    that was not opened with `PIPE` — the embedding hard-codes `none` exactly
    where the source does not pipe the stream;
  * the Python `dict` `error_list` (insertion ordered, unique keys) is an
    association list `ErrList`;
  * `bytes.decode` is the identity (messages are modelled as the decoded
    strings), and `str.replace("\n", "")` removes every newline character;
  * printing is modelled as returning the list of printed lines.
-/

namespace StableBranch

/-- ANSI color code constant RED from src/main.py. -/
def RED : String := "\x1b[31m"

/-- ANSI color code constant GREEN from src/main.py (declared, unused). -/
def GREEN : String := "\x1b[32m"

/-- ANSI color code constant RESET from src/main.py. -/
def RESET : String := "\x1b[0m"

/-- Fixed stable branch name, constant STABLE_BRANCH_NAME in src/main.py. -/
def STABLE_BRANCH_NAME : String := "autotest-stable"

/-- Containment of one character list inside another as a contiguous run,
used to model Python substring containment. -/
def listContainsInfix (needle : List Char) : List Char → Bool
  | [] => needle.isEmpty
  | c :: rest => needle.isPrefixOf (c :: rest) || listContainsInfix needle rest

/-- Python substring containment: `needle in haystack` for strings. -/
def strContains (needle haystack : String) : Bool :=
  listContainsInfix needle.toList haystack.toList

/-- Python `s.replace("\n", "")`: every newline character is removed. -/
def removeNewlines (s : String) : String :=
  String.mk (s.toList.filter (fun c => c != '\n'))

/-- Result of one spawned git process: captured stdout, captured stderr and
exit code.  Streams the source does not pipe are forced to `none` at the
call sites that read them. -/
structure ProcResult where
  out : String
  err : String
  code : Int
  deriving Repr, DecidableEq

/-- Environment supplying the process results of the five git invocations a
single `handle_branch` run can make (each is spawned at most once per run;
checkout is keyed by the ref passed to it). -/
structure GitEnv where
  cloneRes : ProcResult
  branchRes : ProcResult
  checkoutRes : String → ProcResult
  createRes : ProcResult
  mergeRes : ProcResult

/-- Class Error of src/main.py: message plus failure flag. -/
structure Error where
  message : String
  is_error : Bool
  deriving Repr, DecidableEq

/-- Embedding of `Error.__init__` (src/main.py lines 48-49):
`self._message = message.decode(ENCODING).replace("\n", "") if message else ""`
(`message` is `None` or empty bytes exactly when the `Option` is `none` or the
string is empty — both are falsy in Python) and `self._is_error = code != 0`. -/
def Error.init (message : Option String) (code : Int) : Error :=
  { message := match message with
      | some s => if s.isEmpty then "" else removeNewlines s
      | none => ""
    is_error := code != 0 }

/-- Outcome log: the Python dict `error_list : dict[str, [str]]`, modelled as
an insertion-ordered association list with unique keys. -/
abbrev ErrList := List (String × List String)

/-- Python `repository in error_list`. -/
def hasKey (el : ErrList) (k : String) : Bool :=
  el.any (fun p => p.1 == k)

/-- Lookup of the line sequence stored under a key (first match). -/
def lookupLog (el : ErrList) (k : String) : Option (List String) :=
  match el with
  | [] => none
  | p :: rest => if p.1 == k then some p.2 else lookupLog rest k

/-- Python `error_list[k].append(v)`. -/
def appendAt (el : ErrList) (k : String) (v : String) : ErrList :=
  el.map (fun p => if p.1 == k then (p.1, p.2 ++ [v]) else p)

/-- Embedding of `store_error` (src/main.py lines 119-126): when the outcome
failed or verbose mode is on, create the key's sequence if absent, then append
the message, wrapped in RED/RESET markers when the outcome failed. -/
def store_error (verbose : Bool) (el : ErrList) (repository : String) (error : Error) : ErrList :=
  if error.is_error || verbose then
    let el1 := if hasKey el repository then el else el ++ [(repository, [])]
    if error.is_error then
      appendAt el1 repository (RED ++ error.message ++ RESET)
    else
      appendAt el1 repository error.message
  else el

/-- Embedding of `branch_exists` (src/main.py lines 59-66).  The source pipes
only stdout (`stdout=PIPE`, no `stderr=PIPE`), so `communicate()` returns
`None` for `err`; the embedding fixes `err := none` accordingly, which makes
the `raise UnknownGitException` branch unreachable.  The result is Python
substring containment `branch_name in out`. -/
def branch_exists (env : GitEnv) (repository branch_name : String) : Except String Bool :=
  let out := env.branchRes.out
  let err : Option String := none
  match err with
  | some e => Except.error ("Issue while checking branch error: " ++ e)
  | none => Except.ok (strContains branch_name out)

/-- Embedding of `clone` (src/main.py lines 69-75): stderr is piped, the
Error is built from captured stderr and the exit code, stored, and the
failure flag returned. -/
def clone (env : GitEnv) (verbose : Bool) (repository url : String) (el : ErrList) :
    Bool × ErrList :=
  let r := env.cloneRes
  let error := Error.init (some r.err) r.code
  (error.is_error, store_error verbose el repository error)

/-- Embedding of `checkout_branch` (src/main.py lines 78-84): stderr is
piped; Error from captured stderr and exit code. -/
def checkout_branch (env : GitEnv) (verbose : Bool) (repository branch_name : String)
    (el : ErrList) : Bool × ErrList :=
  let r := env.checkoutRes branch_name
  let error := Error.init (some r.err) r.code
  (error.is_error, store_error verbose el repository error)

/-- Embedding of `create_branch_from_position` (src/main.py lines 87-96):
stderr is NOT piped, so on failure `Error(err, returncode)` receives `None`;
on success a synthesized message is used. -/
def create_branch_from_position (env : GitEnv) (verbose : Bool)
    (repository branch_name : String) (el : ErrList) : Bool × ErrList :=
  let r := env.createRes
  let error :=
    if r.code != 0 then Error.init none r.code
    else Error.init (some "Branch Created Successfully") r.code
  (error.is_error, store_error verbose el repository error)

/-- Embedding of `merge_commit_into_current_branch` (src/main.py lines
99-108): stderr is NOT piped, so on failure `Error(err, returncode)` receives
`None`; on success the Error carries the captured stdout (merge summary). -/
def merge_commit_into_current_branch (env : GitEnv) (verbose : Bool)
    (repository hashcode : String) (el : ErrList) : Bool × ErrList :=
  let r := env.mergeRes
  let error :=
    if r.code != 0 then Error.init none r.code
    else Error.init (some r.out) r.code
  (error.is_error, store_error verbose el repository error)

/-- Label for one git operation attempted by `handle_branch`, used to record
the order in which the source invokes them. -/
inductive Op where
  | cloneOp (url : String)
  | branchCheck (branch : String)
  | checkout (ref : String)
  | createBranch (branch : String)
  | merge (hash : String)
  deriving Repr, DecidableEq

/-- Result of one `handle_branch` run: the operations attempted in order, the
final outcome log, and the uncaught exception if one was raised. -/
structure RunResult where
  trace : List Op
  log : ErrList
  exc : Option String
  deriving Repr, DecidableEq

/-- Embedding of `handle_branch` (src/main.py lines 129-142), instrumented
with the trace of operations attempted: each called helper returns its
failure flag, and the source returns immediately on the first failure. -/
def handle_branch (env : GitEnv) (verbose : Bool) (url repository hashcode : String)
    (el : ErrList) : RunResult :=
  let c := clone env verbose repository url el
  if c.1 then ⟨[Op.cloneOp url], c.2, none⟩
  else
    match branch_exists env repository STABLE_BRANCH_NAME with
    | Except.error e =>
        ⟨[Op.cloneOp url, Op.branchCheck STABLE_BRANCH_NAME], c.2, some e⟩
    | Except.ok true =>
        let co := checkout_branch env verbose repository STABLE_BRANCH_NAME c.2
        if co.1 then
          ⟨[Op.cloneOp url, Op.branchCheck STABLE_BRANCH_NAME,
            Op.checkout STABLE_BRANCH_NAME], co.2, none⟩
        else
          let m := merge_commit_into_current_branch env verbose repository hashcode co.2
          ⟨[Op.cloneOp url, Op.branchCheck STABLE_BRANCH_NAME,
            Op.checkout STABLE_BRANCH_NAME, Op.merge hashcode], m.2, none⟩
    | Except.ok false =>
        let co := checkout_branch env verbose repository hashcode c.2
        if co.1 then
          ⟨[Op.cloneOp url, Op.branchCheck STABLE_BRANCH_NAME,
            Op.checkout hashcode], co.2, none⟩
        else
          let cr := create_branch_from_position env verbose repository STABLE_BRANCH_NAME co.2
          ⟨[Op.cloneOp url, Op.branchCheck STABLE_BRANCH_NAME,
            Op.checkout hashcode, Op.createBranch STABLE_BRANCH_NAME], cr.2, none⟩

/-- Class Data of src/main.py: one row of the build report. -/
structure Data where
  repository : String
  url : String
  hashcode : String
  deriving Repr, DecidableEq

/-- Sequentialized batch run of `__main__` (src/main.py lines 203-206): one
`handle_branch` call per report row, threading the shared outcome log.  (The
source dispatches the calls on a two-worker thread pool; the claims proved
against this model do not depend on the interleaving.) -/
def run_batch (verbose : Bool) (tasks : List (Data × GitEnv)) (el : ErrList) : ErrList :=
  tasks.foldl
    (fun acc p => (handle_branch p.2 verbose p.1.url p.1.repository p.1.hashcode acc).log)
    el

/-- String of n spaces (Python padding fill). -/
def spaces (n : Nat) : String := String.mk (List.replicate n ' ')

/-- String of n box-drawing horizontal bars (Python `'═' * n`). -/
def bar (n : Nat) : String := String.mk (List.replicate n '═')

/-- Python `s.ljust(w)`: pad on the right with spaces up to width w, never
truncating. -/
def pyLjust (s : String) (w : Nat) : String := s ++ spaces (w - s.length)

/-- Python `s.center(w)`: CPython places the extra fill character on the
right except when `(w - len) &&& w &&& 1` is odd; never truncates. -/
def pyCenter (s : String) (w : Nat) : String :=
  if w ≤ s.length then s
  else
    let marg := w - s.length
    let left := marg / 2 + (marg &&& w &&& 1)
    spaces left ++ s ++ spaces (marg - left)

/-- Markup stripping used by the width pre-parse in `display_results`
(src/main.py line 167): remove the RED and RESET escape sequences. -/
def cleanMsg (message : String) : String :=
  (message.replace RED "").replace RESET ""

/-- Inner step of the width pre-parse (src/main.py lines 166-169): update
the running maximum with one markup-stripped message length. -/
def msgStep (m : Nat) (message : String) : Nat :=
  let cleaned := cleanMsg message
  if cleaned.length > m then cleaned.length else m

/-- Outer step of the width pre-parse (src/main.py lines 162-169): update
the running key-length maximum and fold the messages of one entry. -/
def widthStep (acc : Nat × Nat) (kv : String × List String) : Nat × Nat :=
  ( if kv.1.length > acc.1 then kv.1.length else acc.1,
    kv.2.foldl msgStep acc.2 )

/-- Width computation of `display_results` (src/main.py lines 158-169): the
running maxima of key lengths and of markup-stripped message lengths. -/
def computeWidths (el : ErrList) : Nat × Nat :=
  el.foldl widthStep (0, 0)

/-- Length of the longest repository name stored in the log. -/
def maxKeyLen (el : ErrList) : Nat :=
  (el.map (fun p => p.1.length)).foldr max 0

/-- Length of the longest stored outcome line, with the RED and RESET markup
sequences excluded from the length. -/
def maxMsgLen (el : ErrList) : Nat :=
  ((el.map Prod.snd).flatten.map (fun m => (cleanMsg m).length)).foldr max 0

/-- One data row of the table (src/main.py lines 181-183). -/
def mkRow (lk lv : Nat) (name message : String) : String :=
  "║ " ++ pyLjust name lk ++ " ║ " ++ pyLjust message lv ++ " ║"

/-- Rows printed for one repository (src/main.py lines 176-185): newline-free
messages are printed unless empty, the repository name appearing only on the
first iteration (`is_first` is cleared even for skipped empty messages). -/
def rowsFor (lk lv : Nat) (repo : String) (messages : List String) : List String :=
  (messages.foldl
    (fun (acc : List String × Bool) message =>
      let m2 := removeNewlines message
      if m2 != "" then
        (acc.1 ++ [mkRow lk lv (if acc.2 then repo else "") m2], false)
      else
        (acc.1, false))
    ([], true)).1

/-- Top border line of the table (src/main.py line 171). -/
def topBorder (lk lv : Nat) : String := "╔═" ++ bar lk ++ "═╦═" ++ bar lv ++ "═╗"

/-- Header line of the table (src/main.py line 172). -/
def headerRow (lk lv : Nat) : String :=
  "║ " ++ pyLjust "repo" lk ++ " ║ " ++ pyCenter "error" lv ++ " ║"

/-- Separator line of the table (src/main.py lines 173 and 186). -/
def sepRow (lk lv : Nat) : String := "╠═" ++ bar lk ++ "═╬═" ++ bar lv ++ "═╣"

/-- Bottom border line of the table (src/main.py line 187). -/
def bottomBorder (lk lv : Nat) : String := "╚═" ++ bar lk ++ "═╩═" ++ bar lv ++ "═╝"

/-- Embedding of `display_results` (src/main.py lines 157-187) as the list of
printed lines: borders and header, then for each stored repository its rows
followed by a separator, then the bottom border. -/
def display_results (el : ErrList) : List String :=
  let w := computeWidths el
  [topBorder w.1 w.2, headerRow w.1 w.2, sepRow w.1 w.2]
    ++ (el.map (fun p => rowsFor w.1 w.2 p.1 p.2 ++ [sepRow w.1 w.2])).flatten
    ++ [bottomBorder w.1 w.2]

/-- Branch-existence value `handle_branch` observes for an environment. -/
def branchExistsVal (env : GitEnv) : Bool :=
  strContains STABLE_BRANCH_NAME env.branchRes.out

/-- Every git operation a task can attempt exits with status 0 (the checkout
ref depends on which fork of the state machine the run takes). -/
def taskSucceeds (d : Data) (env : GitEnv) : Bool :=
  env.cloneRes.code == 0 &&
    (if branchExistsVal env then
       (env.checkoutRes STABLE_BRANCH_NAME).code == 0 && env.mergeRes.code == 0
     else
       (env.checkoutRes d.hashcode).code == 0 && env.createRes.code == 0)

/-- Modelled from the spec: the external branch-listing tool renders one line
per existing branch name; only the interface is specified (§4.1), so the
output format is modelled as two-space-indented names, one per line, which is
what the listing command prints for local branches. -/
def gitBranchAOutput (branches : List String) : String :=
  String.join (branches.map (fun b => "  " ++ b ++ "\n"))

/-- Specification-side branch existence (spec §4.1): a branch with exactly
the queried name exists among the working copy's branches. -/
def branchExistsSpec (branches : List String) (branch_name : String) : Bool :=
  branches.contains branch_name

/-- Predicate that a string contains no newline character. -/
def noNewline (s : String) : Bool :=
  s.toList.all (fun c => c != '\n')

/-- All outcome lines stored in the log, across every repository key. -/
def logLines (el : ErrList) : List String :=
  (el.map Prod.snd).flatten

/-- Environment in which every git operation succeeds with empty output. -/
def envAllOk : GitEnv :=
  { cloneRes := ⟨"", "", 0⟩
    branchRes := ⟨"", "", 0⟩
    checkoutRes := fun _ => ⟨"", "", 0⟩
    createRes := ⟨"", "", 0⟩
    mergeRes := ⟨"", "", 0⟩ }

/-- Environment whose branch-listing process fails (exit status 1, an error
message on stderr, nothing on stdout) while every other operation succeeds:
the concrete instance of the query mechanism itself erroring. -/
def envQueryFail : GitEnv :=
  { envAllOk with branchRes := ⟨"", "fatal: not a git repository", 1⟩ }

/-- Environment whose working copy contains exactly one branch, named
autotest-stable-archive; the branch listing succeeds. -/
def envArchiveBranch : GitEnv :=
  { envAllOk with branchRes := ⟨gitBranchAOutput ["autotest-stable-archive"], "", 0⟩ }

/-! ### Helper lemmas about the outcome log -/

theorem Error.init_is_error (m : Option String) (code : Int) :
    (Error.init m code).is_error = (code != 0) := rfl

theorem hasKey_false_lookup (el : ErrList) (k : String) (h : hasKey el k = false) :
    lookupLog el k = none := by
  induction el with
  | nil => rfl
  | cons p rest ih =>
      simp only [hasKey, List.any_cons, Bool.or_eq_false_iff] at h
      simp only [lookupLog, h.1, if_false]
      exact ih (by simpa [hasKey] using h.2)

theorem lookupLog_append_right (el el2 : ErrList) (k : String)
    (h : lookupLog el k = none) :
    lookupLog (el ++ el2) k = lookupLog el2 k := by
  induction el with
  | nil => rfl
  | cons p rest ih =>
      simp only [lookupLog] at h
      rcases hpk : (p.1 == k) with _ | _
      · rw [hpk, if_neg (by simp)] at h
        simpa [lookupLog, hpk] using ih h
      · rw [hpk, if_pos rfl] at h
        exact absurd h (by simp)

theorem lookupLog_appendAt (el : ErrList) (k v : String) :
    lookupLog (appendAt el k v) k = (lookupLog el k).map (fun l => l ++ [v]) := by
  induction el with
  | nil => rfl
  | cons p rest ih =>
      by_cases h : p.1 = k
      · simp [appendAt, lookupLog, h]
      · simpa [appendAt, lookupLog, h] using ih

theorem lookupLog_isSome (el : ErrList) (k : String) :
    (lookupLog el k).isSome = hasKey el k := by
  induction el with
  | nil => rfl
  | cons p rest ih =>
      by_cases h : p.1 = k
      · simp [lookupLog, hasKey, List.any_cons, h]
      · have hb : (p.1 == k) = false := by simpa using h
        simp only [lookupLog, hasKey, List.any_cons, hb, if_false, Bool.false_or]
        simpa [hasKey] using ih

theorem lookupLog_create_append (el : ErrList) (k v : String) :
    lookupLog (appendAt (if hasKey el k then el else el ++ [(k, [])]) k v) k =
      some ((lookupLog el k).getD [] ++ [v]) := by
  by_cases h : hasKey el k
  · rw [if_pos h, lookupLog_appendAt]
    have hs : (lookupLog el k).isSome = true := by rw [lookupLog_isSome, h]
    rcases Option.isSome_iff_exists.mp hs with ⟨l, hl⟩
    rw [hl]
    rfl
  · rw [if_neg h, lookupLog_appendAt,
        lookupLog_append_right el [(k, [])] k (hasKey_false_lookup el k (by simpa using h)),
        hasKey_false_lookup el k (by simpa using h)]
    simp [lookupLog]

theorem logLines_append (el el2 : ErrList) :
    logLines (el ++ el2) = logLines el ++ logLines el2 := by
  simp [logLines]

theorem logLines_appendAt_mem (el : ErrList) (k v : String) (line : String)
    (h : line ∈ logLines (appendAt el k v)) :
    line ∈ logLines el ∨ line = v := by
  induction el with
  | nil => simp [appendAt, logLines] at h
  | cons p rest ih =>
      simp only [appendAt, List.map_cons, logLines, List.map, List.flatten] at h ⊢
      rcases List.mem_append.mp h with hh | ht
      · by_cases hp : p.1 == k
        · rw [if_pos hp] at hh
          rcases List.mem_append.mp hh with h1 | h2
          · exact Or.inl (List.mem_append.mpr (Or.inl h1))
          · exact Or.inr (by simpa using h2)
        · rw [if_neg hp] at hh
          exact Or.inl (List.mem_append.mpr (Or.inl hh))
      · rcases ih (by simpa [logLines, appendAt] using ht) with h1 | h2
        · exact Or.inl (List.mem_append.mpr (Or.inr (by simpa [logLines] using h1)))
        · exact Or.inr h2

theorem logLines_store_error_mem (verbose : Bool) (el : ErrList) (repo : String)
    (e : Error) (line : String)
    (h : line ∈ logLines (store_error verbose el repo e)) :
    line ∈ logLines el ∨ line = RED ++ e.message ++ RESET ∨ line = e.message := by
  unfold store_error at h
  by_cases hg : e.is_error || verbose
  · rw [if_pos hg] at h
    by_cases he : e.is_error
    · rw [if_pos he] at h
      by_cases hk : hasKey el repo
      · rw [if_pos hk] at h
        rcases logLines_appendAt_mem _ _ _ _ h with h1 | h2
        · exact Or.inl h1
        · exact Or.inr (Or.inl h2)
      · rw [if_neg hk] at h
        rcases logLines_appendAt_mem _ _ _ _ h with h1 | h2
        · rw [logLines_append] at h1
          simp only [logLines, List.map, List.flatten] at h1
          exact Or.inl (by simpa [logLines] using h1)
        · exact Or.inr (Or.inl h2)
    · rw [if_neg he] at h
      by_cases hk : hasKey el repo
      · rw [if_pos hk] at h
        rcases logLines_appendAt_mem _ _ _ _ h with h1 | h2
        · exact Or.inl h1
        · exact Or.inr (Or.inr h2)
      · rw [if_neg hk] at h
        rcases logLines_appendAt_mem _ _ _ _ h with h1 | h2
        · rw [logLines_append] at h1
          simp only [logLines, List.map, List.flatten] at h1
          exact Or.inl (by simpa [logLines] using h1)
        · exact Or.inr (Or.inr h2)
  · rw [if_neg hg] at h
    exact Or.inl h

theorem noNewline_append (a b : String) :
    noNewline (a ++ b) = (noNewline a && noNewline b) := by
  simp [noNewline]

theorem noNewline_removeNewlines (s : String) :
    noNewline (removeNewlines s) = true := by
  have hl : (removeNewlines s).toList = s.toList.filter (fun c => c != '\n') := rfl
  rw [noNewline, hl, List.all_eq_true]
  intro c hc
  simpa using (List.mem_filter.mp hc).2

theorem noNewline_init_message (m : Option String) (code : Int) :
    noNewline (Error.init m code).message = true := by
  rcases m with _ | s
  · rfl
  · by_cases h : s.isEmpty
    · simp [Error.init, h]
      rfl
    · simpa [Error.init, h] using noNewline_removeNewlines s

theorem listContainsInfix_iff (n : List Char) : ∀ h : List Char,
    listContainsInfix n h = true ↔ List.IsInfix n h := by
  intro h
  induction h with
  | nil =>
      rw [listContainsInfix]
      constructor
      · intro he
        have hn : n = [] := by simpa using he
        subst hn
        exact ⟨[], [], rfl⟩
      · intro hi
        have hn : n = [] := List.infix_nil.mp hi
        simp [hn]
  | cons c rest ih =>
      rw [listContainsInfix]
      simp only [Bool.or_eq_true, ih, List.infix_cons_iff, List.isPrefixOf_iff_prefix]

theorem msgStep_eq_max (m : Nat) (message : String) :
    msgStep m message = max m (cleanMsg message).length := by
  simp only [msgStep, Nat.max_def]
  split <;> split <;> omega

theorem foldl_msgStep (l : List String) : ∀ a : Nat,
    l.foldl msgStep a = max a ((l.map (fun m => (cleanMsg m).length)).foldr max 0) := by
  induction l with
  | nil => intro a; simp
  | cons x l ih =>
      intro a
      rw [List.foldl_cons, ih, msgStep_eq_max, List.map_cons, List.foldr_cons, Nat.max_assoc]

theorem widthStep_eq (acc : Nat × Nat) (kv : String × List String) :
    widthStep acc kv =
      (max acc.1 kv.1.length,
       max acc.2 ((kv.2.map (fun m => (cleanMsg m).length)).foldr max 0)) := by
  rw [widthStep, foldl_msgStep]
  refine congrArg (fun x => (x, _)) ?_
  simp only [Nat.max_def]
  split <;> split <;> omega

theorem foldr_max_init (l : List Nat) : ∀ c : Nat,
    l.foldr max c = max (l.foldr max 0) c := by
  induction l with
  | nil => intro c; simp
  | cons x l ih =>
      intro c
      rw [List.foldr_cons, ih, List.foldr_cons, Nat.max_assoc]

theorem maxKeyLen_cons (kv : String × List String) (el : ErrList) :
    maxKeyLen (kv :: el) = max kv.1.length (maxKeyLen el) := rfl

theorem maxMsgLen_cons (kv : String × List String) (el : ErrList) :
    maxMsgLen (kv :: el) =
      max ((kv.2.map (fun m => (cleanMsg m).length)).foldr max 0) (maxMsgLen el) := by
  simp only [maxMsgLen, List.map_cons, List.flatten_cons, List.map_append,
    List.foldr_append]
  rw [foldr_max_init]

theorem foldl_widthStep (el : ErrList) : ∀ ab : Nat × Nat,
    el.foldl widthStep ab = (max ab.1 (maxKeyLen el), max ab.2 (maxMsgLen el)) := by
  induction el with
  | nil =>
      intro ab
      simp [maxKeyLen, maxMsgLen]
  | cons kv el ih =>
      intro ab
      rw [List.foldl_cons, ih, widthStep_eq, maxKeyLen_cons, maxMsgLen_cons]
      simp only [Prod.mk.injEq]
      exact ⟨Nat.max_assoc _ _ _, Nat.max_assoc _ _ _⟩

theorem handle_branch_success_log (env : GitEnv) (d : Data) (el : ErrList)
    (h : taskSucceeds d env = true) :
    (handle_branch env false d.url d.repository d.hashcode el).log = el := by
  rw [taskSucceeds, Bool.and_eq_true] at h
  obtain ⟨h1, h2⟩ := h
  have hc0 : env.cloneRes.code = 0 := by simpa using h1
  have hbe : branch_exists env d.repository STABLE_BRANCH_NAME =
      Except.ok (branchExistsVal env) := rfl
  rcases hb : branchExistsVal env with _ | _ <;> rw [hb] at h2 <;> simp at h2
  · simp [handle_branch, clone, checkout_branch, create_branch_from_position,
      store_error, Error.init_is_error, hbe, hb, hc0, h2.1, h2.2]
  · simp [handle_branch, clone, checkout_branch, merge_commit_into_current_branch,
      store_error, Error.init_is_error, hbe, hb, hc0, h2.1, h2.2]

theorem run_batch_success_keeps_log (tasks : List (Data × GitEnv)) : ∀ el : ErrList,
    (∀ p ∈ tasks, taskSucceeds p.1 p.2 = true) → run_batch false tasks el = el := by
  induction tasks with
  | nil => intro el _; rfl
  | cons p tasks ih =>
      intro el h
      rw [run_batch, List.foldl_cons,
        handle_branch_success_log p.2 p.1 el (h p (List.mem_cons_self p tasks))]
      exact ih el (fun q hq => h q (List.mem_cons_of_mem p hq))

/-! ### Claim theorems -/

/-- C4: the failed flag of an operation outcome is true iff the underlying
operation's exit status was non-zero, and it is independent of the diagnostic
message content: an Error built from exit status 0 with non-empty text is not
failed, and one built from a non-zero status with absent text is failed. -/
theorem C4_failed_iff_nonzero_exit (m : Option String) (code : Int) :
    ((Error.init m code).is_error = true ↔ code ≠ 0) ∧
    (∀ m2 : Option String, (Error.init m2 code).is_error = (Error.init m code).is_error) ∧
    (Error.init (some "merge summary") 0).is_error = false ∧
    (Error.init none 1).is_error = true := by
  refine ⟨?_, fun m2 => rfl, rfl, rfl⟩
  simp [Error.init]

/-- C5: `store_error` always appends the message wrapped in the RED/RESET
error markers when the outcome failed, creating the repository's sequence on
first use; when the outcome did not fail it appends the message unmarked
exactly when verbosity is enabled, and otherwise leaves the log unchanged. -/
theorem C5_store_error_cases (verbose : Bool) (el : ErrList) (repo : String) (e : Error) :
    (e.is_error = true →
        lookupLog (store_error verbose el repo e) repo =
          some ((lookupLog el repo).getD [] ++ [RED ++ e.message ++ RESET])) ∧
    (e.is_error = false → verbose = true →
        lookupLog (store_error verbose el repo e) repo =
          some ((lookupLog el repo).getD [] ++ [e.message])) ∧
    (e.is_error = false → verbose = false → store_error verbose el repo e = el) := by
  refine ⟨fun he => ?_, fun he hv => ?_, fun he hv => ?_⟩
  · simp only [store_error, he, Bool.true_or, if_true]
    exact lookupLog_create_append el repo _
  · simp only [store_error, he, hv, Bool.false_or, if_true, Bool.false_eq_true, if_false]
    exact lookupLog_create_append el repo _
  · simp [store_error, he, hv]

/-- Witness for C5 at a concrete log, repository and outcome. -/
theorem C5_store_error_cases_witness :
    lookupLog (store_error false [] "r" { message := "m", is_error := true }) "r" =
        some [RED ++ "m" ++ RESET] ∧
    lookupLog (store_error true [] "r" { message := "m", is_error := false }) "r" =
        some ["m"] ∧
    store_error false [] "r" { message := "m", is_error := false } = [] :=
  ⟨(C5_store_error_cases false [] "r" ⟨"m", true⟩).1 rfl,
   (C5_store_error_cases true [] "r" ⟨"m", false⟩).2.1 rfl rfl,
   (C5_store_error_cases false [] "r" ⟨"m", false⟩).2.2 rfl rfl⟩

/-- C9: the Error constructor strips every newline from the decoded
diagnostic text and maps absent text to the empty string, so recording such
an outcome preserves the invariant that no stored line contains a newline. -/
theorem C9_stored_lines_newline_free (m : Option String) (code : Int) (verbose : Bool)
    (el : ErrList) (repo : String)
    (h : ∀ line ∈ logLines el, noNewline line = true) :
    noNewline (Error.init m code).message = true ∧
    (Error.init none code).message = "" ∧
    ∀ line ∈ logLines (store_error verbose el repo (Error.init m code)),
      noNewline line = true := by
  refine ⟨noNewline_init_message m code, rfl, fun line hline => ?_⟩
  rcases logLines_store_error_mem verbose el repo _ line hline with h1 | h2 | h3
  · exact h line h1
  · rw [h2, noNewline_append, noNewline_append]
    simp [noNewline_init_message m code]
    exact ⟨rfl, rfl⟩
  · rw [h3]
    exact noNewline_init_message m code

/-- Witness for C9 at a concrete newline-carrying message and empty log. -/
theorem C9_stored_lines_newline_free_witness :
    noNewline (Error.init (some "a\nb") 1).message = true ∧
    (Error.init none 1).message = "" ∧
    ∀ line ∈ logLines (store_error false [] "r" (Error.init (some "a\nb") 1)),
      noNewline line = true :=
  C9_stored_lines_newline_free (some "a\nb") 1 false [] "r" (by simp [logLines])

/-- C10: recording preserves the invariant that every key of the outcome log
holds a non-empty line sequence (keys are created only when a line is
appended), and a failed outcome whose message is empty (as a failed merge
produces, since its stderr is not captured) still appends one error-marked
line under its repository's key. -/
theorem C10_keys_nonempty (verbose : Bool) (el : ErrList) (repo : String) (e : Error)
    (code : Int) (h : ∀ p ∈ el, p.2 ≠ []) (hc : code ≠ 0) :
    (∀ p ∈ store_error verbose el repo e, p.2 ≠ []) ∧
    lookupLog (store_error verbose el repo (Error.init none code)) repo =
      some ((lookupLog el repo).getD [] ++ [RED ++ RESET]) := by
  constructor
  · intro p hp
    unfold store_error at hp
    by_cases hg : e.is_error || verbose
    · rw [if_pos hg] at hp
      have hmem : ∀ q ∈ (if hasKey el repo then el else el ++ [(repo, [])]),
          q.2 ≠ [] ∨ q.1 = repo := by
        by_cases hk : hasKey el repo
        · rw [if_pos hk]
          exact fun q hq => Or.inl (h q hq)
        · rw [if_neg hk]
          intro q hq
          rcases List.mem_append.mp hq with h1 | h2
          · exact Or.inl (h q h1)
          · simp at h2
            exact Or.inr (by rw [h2])
      have happ : ∀ v : String, p ∈ appendAt
          (if hasKey el repo then el else el ++ [(repo, [])]) repo v → p.2 ≠ [] := by
        intro v hv
        rcases List.mem_map.mp hv with ⟨q, hq, hfq⟩
        by_cases hqk : q.1 == repo
        · rw [if_pos hqk] at hfq
          rw [← hfq]
          simp
        · rw [if_neg hqk] at hfq
          rcases hmem q hq with h1 | h2
          · rw [← hfq]; exact h1
          · exact absurd (by simpa using h2) (by simpa using hqk)
      by_cases he : e.is_error
      · rw [if_pos he] at hp
        exact happ _ hp
      · rw [if_neg he] at hp
        exact happ _ hp
    · rw [if_neg hg] at hp
      exact h p hp
  · have hmarked : RED ++ (Error.init none code).message ++ RESET = RED ++ RESET := rfl
    rw [← hmarked]
    simp only [store_error, Error.init_is_error, (by simpa using hc : (code != 0) = true),
      Bool.true_or, if_true]
    exact lookupLog_create_append el repo _

/-- C1: for every repository task and every driver behavior, the synchronizer
attempts clone first, then the branch-existence check, then exactly the fork
the check selects — checkout of the stable branch followed by merge of the
target commit when the branch exists, checkout of the target commit followed
by creation of the stable branch when it does not — and a failing operation
is the last one attempted for that repository. -/
theorem C1_operation_order (env : GitEnv) (verbose : Bool) (url repository hashcode : String)
    (el : ErrList) :
    (handle_branch env verbose url repository hashcode el).trace =
      if env.cloneRes.code != 0 then [Op.cloneOp url]
      else
        [Op.cloneOp url, Op.branchCheck STABLE_BRANCH_NAME] ++
          if branchExistsVal env then
            Op.checkout STABLE_BRANCH_NAME ::
              (if (env.checkoutRes STABLE_BRANCH_NAME).code != 0 then []
               else [Op.merge hashcode])
          else
            Op.checkout hashcode ::
              (if (env.checkoutRes hashcode).code != 0 then []
               else [Op.createBranch STABLE_BRANCH_NAME]) := by
  have hbe : branch_exists env repository STABLE_BRANCH_NAME =
      Except.ok (branchExistsVal env) := rfl
  by_cases h1 : (env.cloneRes.code != 0) = true
  · simp [handle_branch, clone, Error.init_is_error, h1]
  · rw [Bool.not_eq_true] at h1
    rcases h2 : branchExistsVal env with _ | _
    · by_cases h3 : ((env.checkoutRes hashcode).code != 0) = true
      · simp [handle_branch, clone, checkout_branch, Error.init_is_error, hbe, h1, h2, h3]
      · rw [Bool.not_eq_true] at h3
        simp [handle_branch, clone, checkout_branch, Error.init_is_error, hbe, h1, h2, h3]
    · by_cases h3 : ((env.checkoutRes STABLE_BRANCH_NAME).code != 0) = true
      · simp [handle_branch, clone, checkout_branch, Error.init_is_error, hbe, h1, h2, h3]
      · rw [Bool.not_eq_true] at h3
        simp [handle_branch, clone, checkout_branch, Error.init_is_error, hbe, h1, h2, h3]

/-- C2: the branch-existence query never signals failure, whatever the
spawned process's exit status or stderr output, because that process's stderr
is not captured (the unexpected-condition branch of the source can never
fire); at the concrete environment whose branch-listing process fails, the
run raises nothing, treats the failed query as branch-not-found and proceeds
to the create fork, and a two-repository batch completes and renders its
report as if nothing were wrong. -/
theorem C2_branch_query_error_not_fatal :
    (∀ (env : GitEnv) (repository branch_name : String),
        branch_exists env repository branch_name =
          Except.ok (strContains branch_name env.branchRes.out)) ∧
    (handle_branch envQueryFail false "u" "repo" "abc" []).exc = none ∧
    (handle_branch envQueryFail false "u" "repo" "abc" []).trace =
      [Op.cloneOp "u", Op.branchCheck STABLE_BRANCH_NAME, Op.checkout "abc",
       Op.createBranch STABLE_BRANCH_NAME] ∧
    display_results (run_batch false
        [(⟨"repo", "u", "abc"⟩, envQueryFail), (⟨"repo2", "u2", "h2"⟩, envAllOk)] []) =
      [topBorder 0 0, headerRow 0 0, sepRow 0 0, bottomBorder 0 0] :=
  ⟨fun env repository branch_name => rfl, rfl, rfl, rfl⟩

/-- C3 counterexample: in a working copy whose only branch is named
autotest-stable-archive, no branch named autotest-stable exists, yet the
branch-existence operation answers true, because it tests substring
containment of the name in the listing output. -/
theorem C3_counterexample :
    branch_exists envArchiveBranch "repo" "autotest-stable" = Except.ok true ∧
    branchExistsSpec ["autotest-stable-archive"] "autotest-stable" = false :=
  ⟨rfl, rfl⟩

/-- C3 amended: the branch-existence operation returns true iff the queried
branch name occurs as a contiguous substring of the branch-listing output of
the working copy (so a differently-named branch containing the queried name
also answers true), and it never signals failure. -/
theorem C3_substring_semantics (env : GitEnv) (repository branch_name : String) :
    branch_exists env repository branch_name =
      Except.ok (strContains branch_name env.branchRes.out) ∧
    (strContains branch_name env.branchRes.out = true ↔
      List.IsInfix branch_name.toList env.branchRes.out.toList) :=
  ⟨rfl, listContainsInfix_iff branch_name.toList env.branchRes.out.toList⟩

/-- C7: the rendered table's two column widths equal exactly the length of
the longest repository name in the log and the length of the longest single
outcome line with the RED/RESET color markup excluded from the length, and
every border, header, separator and row of the table is laid out with those
two widths. -/
theorem C7_column_widths (el : ErrList) :
    computeWidths el = (maxKeyLen el, maxMsgLen el) ∧
    display_results el =
      [topBorder (maxKeyLen el) (maxMsgLen el), headerRow (maxKeyLen el) (maxMsgLen el),
       sepRow (maxKeyLen el) (maxMsgLen el)]
        ++ (el.map (fun p => rowsFor (maxKeyLen el) (maxMsgLen el) p.1 p.2
              ++ [sepRow (maxKeyLen el) (maxMsgLen el)])).flatten
        ++ [bottomBorder (maxKeyLen el) (maxMsgLen el)] := by
  have hw : computeWidths el = (maxKeyLen el, maxMsgLen el) := by
    rw [computeWidths, foldl_widthStep]
    simp
  exact ⟨hw, by rw [display_results, hw]⟩

/-- C8: a repository under whose key nothing was ever recorded never appears
in the rendered table (removing such a key's entries from the log is a no-op
on the table), and, with verbosity disabled, a batch in which every
repository's every operation succeeds records nothing and renders a table
with no repository rows at all. -/
theorem C8_silent_success_empty_table :
    (∀ (el : ErrList) (r : String), hasKey el r = false →
        display_results (el.filter (fun p => !(p.1 == r))) = display_results el) ∧
    (∀ tasks : List (Data × GitEnv), (∀ p ∈ tasks, taskSucceeds p.1 p.2 = true) →
        run_batch false tasks [] = [] ∧
        display_results (run_batch false tasks []) =
          [topBorder 0 0, headerRow 0 0, sepRow 0 0, bottomBorder 0 0]) := by
  constructor
  · intro el r h
    have hself : el.filter (fun p => !(p.1 == r)) = el := by
      apply List.filter_eq_self.mpr
      intro p hp
      simp only [hasKey, List.any_eq_false] at h
      simpa using h p hp
    rw [hself]
  · intro tasks h
    have hrb := run_batch_success_keeps_log tasks [] h
    exact ⟨hrb, by rw [hrb]; rfl⟩

/-- Witness for C8 at a concrete log with an absent key and a concrete
one-repository all-success batch. -/
theorem C8_silent_success_empty_table_witness :
    display_results ((([("a", ["x"])] : ErrList).filter (fun p => !(p.1 == "b")))) =
        display_results [("a", ["x"])] ∧
    (run_batch false [(⟨"repo", "u", "h"⟩, envAllOk)] [] = [] ∧
     display_results (run_batch false [(⟨"repo", "u", "h"⟩, envAllOk)] []) =
       [topBorder 0 0, headerRow 0 0, sepRow 0 0, bottomBorder 0 0]) :=
  ⟨C8_silent_success_empty_table.1 [("a", ["x"])] "b" (by decide),
   C8_silent_success_empty_table.2 [(⟨"repo", "u", "h"⟩, envAllOk)]
     (by intro p hp; simp at hp; rw [hp]; decide)⟩

/-- Witness for C10 at the empty log and a failed merge's empty message. -/
theorem C10_keys_nonempty_witness :
    (∀ p ∈ store_error false [] "r" (Error.init none 1), p.2 ≠ []) ∧
    lookupLog (store_error false [] "r" (Error.init none 1)) "r" =
      some [RED ++ RESET] :=
  C10_keys_nonempty false [] "r" (Error.init none 1) 1 (by simp) (by decide)

end StableBranch
